import Mathlib

/-!
# ddns-action: provider-dispatch and content-hash codec core

A shallow embedding of the core of the `ddns-action` repository: the domain
classifier, the content-hash codec, the resolver locator and the update
executor, together with the promise handlers of `src/runner.js`.

The repository ships only the runner harness (`src/runner.js`), the action
declaration (`action.yml`) and a vendored dependency's contract test suite;
the updater implementation itself (`src/updater.js` and the per-family
updaters it dispatches to) is not present.  Following the specification,
the missing core is modelled here faithfully from the spec's component
design (§4) and data model (§3); each such definition is marked
`Modelled from the spec:` in its doc comment.  `src/runner.js` is embedded
directly from its source.
-/

deriving instance DecidableEq for Except

namespace DdnsAction

/-! ## Base-58 digits (the alphabet used by IPFS CIDv0 identifiers) -/

/-- The base-58btc alphabet (Bitcoin/IPFS order): digits and letters with
`0`, `O`, `I`, `l` excluded. -/
def b58Chars : List Char :=
  "123456789ABCDEFGHJKLMNPQRSTUVWXYZabcdefghijkmnopqrstuvwxyz".toList

/-- Digit value of a base-58 character (58 = not a base-58 character). -/
def charToB58 (c : Char) : Nat := b58Chars.indexOf c

/-- Character of a base-58 digit value. -/
def b58ToChar (d : Nat) : Char := b58Chars.getD d '1'

/-- Whether a character belongs to the base-58 alphabet. -/
def isB58Char (c : Char) : Bool := b58Chars.contains c

/-! ## Base conversion

`natDigitsLE b n` is the little-endian list of base-`b` digits of `n`,
written with structural (fuel) recursion so that it evaluates by kernel
reduction; it is proved equal to Mathlib's `Nat.digits` below. -/

/-- Fuel-driven digit extraction; `fuel ≥ m` suffices for base ≥ 2. -/
def natDigitsGo (b : Nat) : Nat → Nat → List Nat
  | 0, _ => []
  | _ + 1, 0 => []
  | fuel + 1, m + 1 => ((m + 1) % b) :: natDigitsGo b fuel ((m + 1) / b)

/-- Little-endian base-`b` digits of `n` (executable form of `Nat.digits`). -/
def natDigitsLE (b n : Nat) : List Nat := natDigitsGo b n n

theorem natDigitsGo_eq (b : Nat) (hb : 2 ≤ b) :
    ∀ fuel m, m ≤ fuel → natDigitsGo b fuel m = Nat.digits b m := by
  intro fuel
  induction fuel with
  | zero =>
    intro m hm
    interval_cases m
    simp [natDigitsGo]
  | succ k ih =>
    intro m hm
    match m with
    | 0 => simp [natDigitsGo]
    | m + 1 =>
      have hrec : (m + 1) / b ≤ k := by
        have h1 : (m + 1) / b < m + 1 := Nat.div_lt_self (Nat.succ_pos m) (by omega)
        omega
      rw [natDigitsGo, ih _ hrec, Nat.digits_def' (by omega : 1 < b) (Nat.succ_pos m)]

theorem natDigitsLE_eq (b n : Nat) (hb : 2 ≤ b) : natDigitsLE b n = Nat.digits b n :=
  natDigitsGo_eq b hb n n (Nat.le_refl n)

/-! ## Base-58 codec (string form of CIDv0 / multihash identifiers) -/

/-- Base-58 decoding of a character list into bytes: leading `'1'`
characters become leading zero bytes, the remaining digits are read as a
big-endian base-58 number whose big-endian base-256 digits are the
remaining bytes.  Fails when a character is outside the alphabet. -/
def b58DecodeList (cs : List Char) : Option (List Nat) :=
  if cs.all isB58Char then
    some (List.replicate ((cs.takeWhile (fun c => c == '1')).length) 0 ++
      (natDigitsLE 256 (Nat.ofDigits 58
        (((cs.dropWhile (fun c => c == '1')).map charToB58).reverse))).reverse)
  else none

/-- Base-58 encoding of a byte list: inverse of `b58DecodeList`. -/
def b58EncodeList (bs : List Nat) : List Char :=
  List.replicate ((bs.takeWhile (fun b => b == 0)).length) '1' ++
    ((natDigitsLE 58 (Nat.ofDigits 256 ((bs.dropWhile (fun b => b == 0)).reverse))).map
      b58ToChar).reverse

/-! ## Hex codec (string form of swarm hashes) -/

/-- The lowercase hexadecimal alphabet. -/
def hexChars : List Char := "0123456789abcdef".toList

/-- Nibble value of a hex character (16 = not a lowercase hex character). -/
def charToHex (c : Char) : Nat := hexChars.indexOf c

/-- Character of a nibble value. -/
def hexToChar (d : Nat) : Char := hexChars.getD d '0'

/-- Whether a character is a lowercase hexadecimal digit. -/
def isHexChar (c : Char) : Bool := hexChars.contains c

/-- Hex decoding: consumes characters two at a time into bytes; fails on an
odd-length input or a character outside the lowercase hex alphabet. -/
def hexDecodeList : List Char → Option (List Nat)
  | [] => some []
  | [_] => none
  | c1 :: c2 :: rest =>
    if isHexChar c1 && isHexChar c2 then
      match hexDecodeList rest with
      | some bs => some ((16 * charToHex c1 + charToHex c2) :: bs)
      | none => none
    else none

/-- Hex encoding of a byte list, two lowercase characters per byte. -/
def hexEncodeList : List Nat → List Char
  | [] => []
  | b :: bs => hexToChar (b / 16) :: hexToChar (b % 16) :: hexEncodeList bs

/-! ## Data model (spec §3) -/

/-- The content-type tags of `action.yml` (`ipfs-ns`, `swarm-ns`). -/
inductive ContentTypeTag
  | ipfsNs
  | swarmNs
deriving DecidableEq

/-- The registry families of `action.yml` / the README (ENS, CNS, UNS). -/
inductive RegistryFamily
  | ENS
  | CNS
  | UNS
deriving DecidableEq

/-- The error taxonomy of spec §7. -/
inductive UpdateError
  | UnsupportedDomain
  | UnsupportedContentType
  | MalformedContentHash
  | InvalidSecret
  | UnreachableEndpoint
  | DomainNotFound
  | NotAuthorized
  | TransactionReverted (reason : String)
  | TransactionTimeout
deriving DecidableEq

/-- Modelled from the spec: an `UpdatePlan` (§3) — the resolved target
produced before any transaction is sent: the family, its write-method
signature, and the encoded content-hash argument. -/
structure UpdatePlan where
  family : RegistryFamily
  method : String
  encodedArg : List Nat
deriving DecidableEq

/-- Modelled from the spec: an `UpdateResult` (§3) — a structural echo of
the `UpdatePlan` (dry run) or a transaction identifier (live run). -/
inductive UpdateResult
  | dryRunOf (plan : UpdatePlan)
  | executed (txId : Nat)
deriving DecidableEq

/-- The observable chain interactions of one invocation, in order. -/
inductive ChainAction
  | constructClient
  | readCall
  | sendTx
deriving DecidableEq

/-! ## ContentHash codec (spec §4.2)

The codec implementation is not under `src/`; it is modelled from the
spec: a fixed namespace-identifying header (a distinct constant per tag)
prepended to the decoded payload bytes of the human identifier — a
base-58 multihash for `ipfs-ns`, a 32-byte hex hash for `swarm-ns`. -/

/-- Modelled from the spec: the fixed namespace-identifying byte header of
each tag (§4.2, "a distinct constant per tag"; multicodec values). -/
def nsHeader : ContentTypeTag → List Nat
  | .ipfsNs => [227, 1]
  | .swarmNs => [228, 1]

/-- Multihash payload shape: a hash-code byte, a length byte, and exactly
that many digest bytes. -/
def isMultihash : List Nat → Bool
  | _ :: len :: digest => len == digest.length
  | _ => false

/-- Modelled from the spec: `encode(humanHash, tag) -> bytes` (§4.2).
Decodes the human identifier under the tag's payload shape (base-58
multihash for `ipfs-ns`, 64 lowercase hex characters for `swarm-ns`) and
prepends the tag's namespace header.  `none` models `MalformedContentHash`. -/
def encode (humanHash : String) (tag : ContentTypeTag) : Option (List Nat) :=
  match tag with
  | .ipfsNs =>
    match b58DecodeList humanHash.toList with
    | some payload => if isMultihash payload then some (nsHeader .ipfsNs ++ payload) else none
    | none => none
  | .swarmNs =>
    match hexDecodeList humanHash.toList with
    | some payload => if payload.length == 32 then some (nsHeader .swarmNs ++ payload) else none
    | none => none

/-- Modelled from the spec: `decode(bytes) -> (humanHash, tag)` (§4.2).
Inspects the namespace header to select the tag, then re-derives the human
string form from the remaining payload bytes. -/
def decode (bs : List Nat) : Option (String × ContentTypeTag) :=
  match bs with
  | b0 :: b1 :: payload =>
    if b0 == 227 && b1 == 1 then
      if isMultihash payload then some (String.mk (b58EncodeList payload), .ipfsNs) else none
    else if b0 == 228 && b1 == 1 then
      if payload.length == 32 then some (String.mk (hexEncodeList payload), .swarmNs) else none
    else none
  | _ => none

/-! ## Domain classifier (spec §4.1) -/

/-- The suffixes of the UNS family, per `action.yml` / the README. -/
def unsSuffixes : List (List Char) :=
  [".coin".toList, ".wallet".toList, ".bitcoin".toList, ".x".toList,
   ".888".toList, ".nft".toList, ".dao".toList, ".blockchain".toList]

/-- Every recognized suffix, with the family it selects. -/
def recognizedSuffixes : List (List Char) :=
  ".eth".toList :: ".crypto".toList :: unsSuffixes

/-- Suffix dispatch on an already-lowercased character list. -/
def classifyCore (l : List Char) : Except UpdateError RegistryFamily :=
  if (".eth".toList).isSuffixOf l then .ok .ENS
  else if (".crypto".toList).isSuffixOf l then .ok .CNS
  else if unsSuffixes.any (fun suf => suf.isSuffixOf l) then .ok .UNS
  else .error .UnsupportedDomain

/-- Modelled from the spec: `classify(name) -> RegistryFamily` (§4.1) —
deterministic, suffix-driven, case-insensitive on the suffix; fails with
`UnsupportedDomain` when the suffix matches no known family. -/
def classify (name : String) : Except UpdateError RegistryFamily :=
  classifyCore (name.toList.map Char.toLower)

/-- Modelled from the spec: the content-type support table of the README
(`ENS`: ipfs-ns and swarm-ns; `CNS`, `UNS`: ipfs-ns only). -/
def supportsContentType : RegistryFamily → ContentTypeTag → Bool
  | .ENS, _ => true
  | .CNS, .ipfsNs => true
  | .CNS, .swarmNs => false
  | .UNS, .ipfsNs => true
  | .UNS, .swarmNs => false

/-- Parse a content-type input string to its tag. -/
def parseTag (s : String) : Option ContentTypeTag :=
  if s = "ipfs-ns" then some .ipfsNs
  else if s = "swarm-ns" then some .swarmNs
  else none

/-! ## Chain client and resolver locator (spec §4.3, §4.4) -/

/-- Outcome of the single state-mutating `send` of spec §4.3: a
transaction identifier, a revert with reason, or a timeout. -/
inductive SendOutcome
  | success (txId : Nat)
  | reverted (reason : String)
  | timeout
deriving DecidableEq

/-- Modelled from the spec: the opaque upstream collaborators of §6 — the
RPC endpoint's liveness, the registries' record-owner state, the approved
operators, and the outcome the network would give the single `send`. -/
structure Env where
  endpointReachable : Bool
  recordOwner : String → Option Nat
  operatorApproved : Nat → Bool
  sendOutcome : SendOutcome

/-- Modelled from the spec: derivation of the signing identity from the
supplied secret (§3 `SigningIdentity`, §4.3 construction); address
derivation is abstracted, parse failure models `InvalidSecret`. -/
def parseSecret (s : String) : Option Nat :=
  if s.isEmpty then none else some (s.length)

/-- Modelled from the spec: the write-method signature carried by each
family (§3 `RegistryFamily`). -/
def writeMethod : RegistryFamily → String
  | .ENS => "setContenthash"
  | .CNS => "set"
  | .UNS => "set"

/-- Modelled from the spec: `locate(family, name, chainClient) ->
UpdatePlan | AuthorizationFailure` (§4.4): read the record's owner; no
record fails with `DomainNotFound`; an owner/approved-operator different
from the signing identity fails with `NotAuthorized`; otherwise an
`UpdatePlan` bound to the family's write method and the encoded
content-hash argument. -/
def locate (env : Env) (family : RegistryFamily) (name : String) (signer : Nat)
    (encodedArg : List Nat) : Except UpdateError UpdatePlan :=
  match env.recordOwner name with
  | none => .error .DomainNotFound
  | some o =>
    if o == signer || env.operatorApproved signer then
      .ok ⟨family, writeMethod family, encodedArg⟩
    else .error .NotAuthorized

/-! ## Update executor (spec §4.5) -/

set_option linter.unusedVariables false in
/-- Modelled from the spec: steps 1–5 of `update` (§4.5), short-circuiting
on first failure: classify, validate content type, encode, construct the
chain client, locate and authorize.  Also returns the chain interactions
performed, in order.  (`rpcUrl` is consumed only by the modelled client
construction, whose liveness outcome lives in `Env`.) -/
def pipeline5 (env : Env) (secret rpcUrl name contentHash contentType : String) :
    Except UpdateError UpdatePlan × List ChainAction :=
  match classify name with
  | .error e => (.error e, [])
  | .ok family =>
    match parseTag contentType with
    | none => (.error .UnsupportedContentType, [])
    | some tag =>
      if supportsContentType family tag then
        match encode contentHash tag with
        | none => (.error .MalformedContentHash, [])
        | some bytes =>
          match parseSecret secret with
          | none => (.error .InvalidSecret, [.constructClient])
          | some signer =>
            if env.endpointReachable then
              (locate env family name signer bytes, [.constructClient, .readCall])
            else (.error .UnreachableEndpoint, [.constructClient])
      else (.error .UnsupportedContentType, [])

/-- Modelled from the spec: `update(secret, rpcUrl, name, contentHash,
contentType, dryRun) -> UpdateResult` (§4.5).  After steps 1–5, a dry run
returns the `UpdatePlan`'s description without calling `send` (step 6); a
live run calls `send` once and maps its outcome (step 7). -/
def update (env : Env) (secret rpcUrl name contentHash contentType : String)
    (dryRun : Bool) : Except UpdateError UpdateResult × List ChainAction :=
  match pipeline5 env secret rpcUrl name contentHash contentType with
  | (.error e, tr) => (.error e, tr)
  | (.ok plan, tr) =>
    if dryRun then (.ok (.dryRunOf plan), tr)
    else
      match env.sendOutcome with
      | .success tx => (.ok (.executed tx), tr ++ [.sendTx])
      | .reverted r => (.error (.TransactionReverted r), tr ++ [.sendTx])
      | .timeout => (.error .TransactionTimeout, tr ++ [.sendTx])

/-- Modelled from the spec: the entry point with its declared defaults
(§4.5): omitting `contentType` defaults it to `"ipfs-ns"`, omitting
`dryRun` defaults it to `false` — a call supplying only the first four
arguments is a live `ipfs-ns` update. -/
def updateWithDefaults (env : Env) (secret rpcUrl name contentHash : String) :
    Except UpdateError UpdateResult × List ChainAction :=
  update env secret rpcUrl name contentHash "ipfs-ns" false

/-- Errors that can arise in steps 1–5, before the `send` of step 7. -/
def preSendError : UpdateError → Bool
  | .TransactionReverted _ => false
  | .TransactionTimeout => false
  | _ => true

/-! ## Runner harness (src/runner.js) -/

/-- The observable end state of the runner process: its stdout lines, its
stderr lines, and the process exit code. -/
structure ProcOutcome where
  stdoutLines : List String
  stderrLines : List String
  exitCode : Nat
deriving DecidableEq

/-- Shallow embedding of the promise handlers of `src/runner.js`: the
`then` handler logs `'>>>', x` and calls `process.exit(0)`; the `catch`
handler passes the rejection to `console.error` and sets no exit code, so
the process terminates with Node's default status 0 once the event loop
drains. -/
def runnerFinish (r : Except String String) : ProcOutcome :=
  match r with
  | .ok x => ⟨[">>> " ++ x], [], 0⟩
  | .error e => ⟨[], [e], 0⟩

/-! ## Alphabet lemmas -/

theorem b58Chars_length : b58Chars.length = 58 := by decide

theorem mem_of_isB58Char {c : Char} (h : isB58Char c = true) : c ∈ b58Chars := by
  simpa [isB58Char, List.contains] using List.elem_iff.mp h

theorem charToB58_lt {c : Char} (h : isB58Char c = true) : charToB58 c < 58 := by
  have := List.indexOf_lt_length.mpr (mem_of_isB58Char h)
  simpa [charToB58, b58Chars_length] using this

theorem b58ToChar_charToB58 {c : Char} (h : isB58Char c = true) :
    b58ToChar (charToB58 c) = c := by
  have hm := mem_of_isB58Char h
  have hlt : List.indexOf c b58Chars < b58Chars.length := List.indexOf_lt_length.mpr hm
  simp only [b58ToChar, charToB58, List.getD_eq_getElem b58Chars '1' hlt]
  exact List.getElem_indexOf hlt

theorem charToB58_ne_zero {c : Char} (h : isB58Char c = true) (hne : c ≠ '1') :
    charToB58 c ≠ 0 := by
  intro h0
  have hg := b58ToChar_charToB58 h
  rw [h0] at hg
  exact hne (by simpa [show b58ToChar 0 = '1' from by decide] using hg.symm)

theorem mem_of_isHexChar {c : Char} (h : isHexChar c = true) : c ∈ hexChars := by
  simpa [isHexChar, List.contains] using List.elem_iff.mp h

theorem charToHex_lt {c : Char} (h : isHexChar c = true) : charToHex c < 16 := by
  have := List.indexOf_lt_length.mpr (mem_of_isHexChar h)
  simpa [charToHex, show hexChars.length = 16 by decide] using this

theorem hexToChar_charToHex {c : Char} (h : isHexChar c = true) :
    hexToChar (charToHex c) = c := by
  have hm := mem_of_isHexChar h
  have hlt : List.indexOf c hexChars < hexChars.length := List.indexOf_lt_length.mpr hm
  simp only [hexToChar, charToHex, List.getD_eq_getElem hexChars '0' hlt]
  exact List.getElem_indexOf hlt

/-! ## takeWhile / dropWhile over a zero block -/

theorem takeWhile_replicate_append {α : Type} (p : α → Bool) (a : α) (hpa : p a = true)
    (k : Nat) (l : List α) (hl : ∀ b t, l = b :: t → p b = false) :
    List.takeWhile p (List.replicate k a ++ l) = List.replicate k a := by
  induction k with
  | zero =>
    cases l with
    | nil => rfl
    | cons b t => simp [List.takeWhile_cons, hl b t rfl]
  | succ m ih => simp [List.replicate_succ, List.takeWhile_cons, hpa, ih]

theorem dropWhile_replicate_append {α : Type} (p : α → Bool) (a : α) (hpa : p a = true)
    (k : Nat) (l : List α) (hl : ∀ b t, l = b :: t → p b = false) :
    List.dropWhile p (List.replicate k a ++ l) = l := by
  induction k with
  | zero =>
    cases l with
    | nil => rfl
    | cons b t => simp [List.dropWhile_cons, hl b t rfl]
  | succ m ih => simp [List.replicate_succ, List.dropWhile_cons, hpa, ih]

theorem head_dropWhile_false {α : Type} (p : α → Bool) :
    ∀ (l : List α) {a : α} {t : List α}, List.dropWhile p l = a :: t → p a = false := by
  intro l
  induction l with
  | nil => intro a t h; simp [List.dropWhile] at h
  | cons x xs ih =>
    intro a t h
    rw [List.dropWhile_cons] at h
    by_cases hx : p x = true
    · exact ih (by simpa [hx] using h)
    · simp only [hx, if_false] at h
      cases h
      simpa using hx

/-! ## Base-58 round trip -/

theorem natDigitsLE_zero (b : Nat) : natDigitsLE b 0 = [] := rfl

theorem b58_round_core (ones : Nat) (rest : List Char)
    (hhd : ∀ c t, rest = c :: t → (c == '1') = false)
    (hok : ∀ c ∈ rest, isB58Char c = true) :
    b58EncodeList (List.replicate ones 0 ++
      (natDigitsLE 256 (Nat.ofDigits 58 ((rest.map charToB58).reverse))).reverse)
      = List.replicate ones '1' ++ rest := by
  cases rest with
  | nil =>
    simp only [List.map_nil, List.reverse_nil, Nat.ofDigits_nil, natDigitsLE_zero,
      List.append_nil, b58EncodeList, List.takeWhile_replicate, List.dropWhile_replicate]
    simp [natDigitsLE_zero]
  | cons c t =>
    have hc58 : isB58Char c = true := hok c (List.mem_cons_self c t)
    have hcne : (c == '1') = false := hhd c t rfl
    have hcne' : c ≠ '1' := by simpa using hcne
    have hd0 : charToB58 c ≠ 0 := charToB58_ne_zero hc58 hcne'
    have hds_ne : (((c :: t).map charToB58).reverse) ≠ [] := by simp
    have hds_last : ∀ (hne : (((c :: t).map charToB58).reverse) ≠ []),
        (((c :: t).map charToB58).reverse).getLast hne ≠ 0 := by
      intro hne
      have hlq : (((c :: t).map charToB58).reverse).getLast? = some (charToB58 c) := by
        rw [List.getLast?_reverse]
        simp
      rw [List.getLast?_eq_getLast _ hne] at hlq
      intro h0
      rw [h0] at hlq
      exact hd0 (Option.some_injective _ hlq).symm
    have hds_lt : ∀ d ∈ (((c :: t).map charToB58).reverse), d < 58 := by
      intro d hd
      rcases List.mem_map.mp (List.mem_reverse.mp hd) with ⟨c', hc', rfl⟩
      exact charToB58_lt (hok c' hc')
    have hdig : Nat.digits 58 (Nat.ofDigits 58 (((c :: t).map charToB58).reverse))
        = ((c :: t).map charToB58).reverse :=
      Nat.digits_ofDigits 58 (by norm_num) _ hds_lt hds_last
    have hn_ne : Nat.ofDigits 58 (((c :: t).map charToB58).reverse) ≠ 0 := by
      intro h0
      apply hds_ne
      rw [← hdig, h0, Nat.digits_zero]
    have h256_ne : Nat.digits 256 (Nat.ofDigits 58 (((c :: t).map charToB58).reverse)) ≠ [] :=
      Nat.digits_ne_nil_iff_ne_zero.mpr hn_ne
    have hhead : ∀ x xt,
        (Nat.digits 256 (Nat.ofDigits 58 (((c :: t).map charToB58).reverse))).reverse = x :: xt →
        (x == 0) = false := by
      intro x xt hx
      have hlast := Nat.getLast_digit_ne_zero 256 hn_ne
      have hq : (Nat.digits 256 (Nat.ofDigits 58 (((c :: t).map charToB58).reverse))).reverse.head?
          = some ((Nat.digits 256 (Nat.ofDigits 58 (((c :: t).map charToB58).reverse))).getLast
            h256_ne) := by
        rw [List.head?_reverse, List.getLast?_eq_getLast _ h256_ne]
      rw [hx] at hq
      simp only [List.head?_cons, Option.some.injEq] at hq
      rw [← hq] at hlast
      simpa using hlast
    simp only [b58EncodeList]
    rw [natDigitsLE_eq 256 _ (by norm_num)]
    rw [takeWhile_replicate_append (fun x => x == 0) 0 rfl ones _ hhead,
      dropWhile_replicate_append (fun x => x == 0) 0 rfl ones _ hhead,
      List.length_replicate, List.reverse_reverse, Nat.ofDigits_digits,
      natDigitsLE_eq 58 _ (by norm_num), hdig, List.map_reverse,
      List.reverse_reverse, List.map_map]
    have hmapid : (c :: t).map (b58ToChar ∘ charToB58) = c :: t := by
      rw [List.map_congr_left (g := id), List.map_id]
      intro a ha
      exact b58ToChar_charToB58 (hok a ha)
    rw [hmapid]

theorem b58EncodeList_b58DecodeList {cs : List Char} {bs : List Nat}
    (h : b58DecodeList cs = some bs) : b58EncodeList bs = cs := by
  have hall : cs.all isB58Char = true := by
    by_contra hno
    simp [b58DecodeList, hno] at h
  have hbs : List.replicate ((cs.takeWhile (fun c => c == '1')).length) 0 ++
      (natDigitsLE 256 (Nat.ofDigits 58
        (((cs.dropWhile (fun c => c == '1')).map charToB58).reverse))).reverse = bs := by
    simpa [b58DecodeList, hall] using h
  have hsplit : cs.takeWhile (fun c => c == '1') ++ cs.dropWhile (fun c => c == '1') = cs :=
    List.takeWhile_append_dropWhile _ cs
  have htake : cs.takeWhile (fun c => c == '1')
      = List.replicate ((cs.takeWhile (fun c => c == '1')).length) '1' :=
    List.eq_replicate_length.mpr (fun b hb => by simpa using List.mem_takeWhile_imp hb)
  have hcore := b58_round_core ((cs.takeWhile (fun c => c == '1')).length)
    (cs.dropWhile (fun c => c == '1'))
    (fun c t hct => head_dropWhile_false (fun x => x == '1') cs hct)
    (fun c hc => List.all_eq_true.mp hall c
      (by rw [← hsplit]; exact List.mem_append_right _ hc))
  rw [← hbs, hcore, ← htake, hsplit]

/-! ## Hex round trip -/

theorem hexEncodeList_hexDecodeList :
    ∀ (cs : List Char) (bs : List Nat), hexDecodeList cs = some bs → hexEncodeList bs = cs
  | [], bs, h => by
    simp only [hexDecodeList, Option.some.injEq] at h
    rw [← h]
    rfl
  | [_], _, h => by simp [hexDecodeList] at h
  | c1 :: c2 :: rest, bs, h => by
    rw [hexDecodeList] at h
    by_cases hc : (isHexChar c1 && isHexChar c2) = true
    · rw [if_pos hc] at h
      have hc1 : isHexChar c1 = true := by
        have := hc
        simp [Bool.and_eq_true] at this
        exact this.1
      have hc2 : isHexChar c2 = true := by
        have := hc
        simp [Bool.and_eq_true] at this
        exact this.2
      cases hrest : hexDecodeList rest with
      | none => rw [hrest] at h; exact absurd h (by simp)
      | some tl =>
        rw [hrest] at h
        simp only [Option.some.injEq] at h
        rw [← h, hexEncodeList]
        have hd1 : charToHex c1 < 16 := charToHex_lt hc1
        have hd2 : charToHex c2 < 16 := charToHex_lt hc2
        have hdiv : (16 * charToHex c1 + charToHex c2) / 16 = charToHex c1 := by
          rw [Nat.mul_add_div (by norm_num), Nat.div_eq_of_lt hd2, Nat.add_zero]
        have hmod : (16 * charToHex c1 + charToHex c2) % 16 = charToHex c2 := by
          rw [Nat.mul_add_mod, Nat.mod_eq_of_lt hd2]
        rw [hdiv, hmod, hexToChar_charToHex hc1, hexToChar_charToHex hc2,
          hexEncodeList_hexDecodeList rest tl hrest]
    · rw [if_neg hc] at h
      exact absurd h (by simp)

/-! ## Codec round trip (spec §4.2, §8) -/

theorem stringMk_toList : ∀ s : String, String.mk s.toList = s := fun ⟨_⟩ => rfl

theorem decode_encode (identifier : String) (tag : ContentTypeTag) (bs : List Nat)
    (h : encode identifier tag = some bs) : decode bs = some (identifier, tag) := by
  cases tag with
  | ipfsNs =>
    simp only [encode] at h
    cases hb : b58DecodeList identifier.toList with
    | none => rw [hb] at h; simp at h
    | some payload =>
      rw [hb] at h
      by_cases hm : isMultihash payload = true
      · simp only [hm, if_true, Option.some.injEq, nsHeader] at h
        have hbs : bs = 227 :: 1 :: payload := by rw [← h]; rfl
        subst hbs
        simp only [decode]
        norm_num [hm]
        rw [b58EncodeList_b58DecodeList hb, stringMk_toList]
      · simp [hm] at h
  | swarmNs =>
    simp only [encode] at h
    cases hb : hexDecodeList identifier.toList with
    | none => rw [hb] at h; simp at h
    | some payload =>
      rw [hb] at h
      by_cases hm : (payload.length == 32) = true
      · simp only [hm, if_true, Option.some.injEq, nsHeader] at h
        have hbs : bs = 228 :: 1 :: payload := by rw [← h]; rfl
        subst hbs
        simp only [decode]
        norm_num [hm]
        rw [hexEncodeList_hexDecodeList identifier.toList payload hb, stringMk_toList]
      · simp [hm] at h

/-! ## Executor lemmas -/

theorem pipeline5_trace (env : Env) (s r n h ct : String) :
    (pipeline5 env s r n h ct).2 = [] ∨
    (pipeline5 env s r n h ct).2 = [ChainAction.constructClient] ∨
    (pipeline5 env s r n h ct).2 = [ChainAction.constructClient, ChainAction.readCall] := by
  unfold pipeline5
  repeat' split
  all_goals simp

theorem pipeline5_no_send (env : Env) (s r n h ct : String) :
    ChainAction.sendTx ∉ (pipeline5 env s r n h ct).2 := by
  rcases pipeline5_trace env s r n h ct with hq | hq | hq <;> rw [hq] <;> decide

theorem update_of_pipeline_err {env : Env} {s r n h ct : String} {e : UpdateError}
    {tr : List ChainAction} (hq : pipeline5 env s r n h ct = (.error e, tr)) (d : Bool) :
    update env s r n h ct d = (.error e, tr) := by
  unfold update
  rw [hq]

theorem update_of_pipeline_ok_dry {env : Env} {s r n h ct : String} {plan : UpdatePlan}
    {tr : List ChainAction} (hq : pipeline5 env s r n h ct = (.ok plan, tr)) :
    update env s r n h ct true = (.ok (.dryRunOf plan), tr) := by
  unfold update
  rw [hq]
  simp

theorem update_of_pipeline_ok_live {env : Env} {s r n h ct : String} {plan : UpdatePlan}
    {tr : List ChainAction} (hq : pipeline5 env s r n h ct = (.ok plan, tr)) :
    update env s r n h ct false =
      match env.sendOutcome with
      | .success tx => (.ok (.executed tx), tr ++ [.sendTx])
      | .reverted rs => (.error (.TransactionReverted rs), tr ++ [.sendTx])
      | .timeout => (.error .TransactionTimeout, tr ++ [.sendTx]) := by
  unfold update
  rw [hq]
  simp

theorem pipeline5_of_classify_err {name : String} {e : UpdateError}
    (hcl : classify name = .error e) (env : Env) (s r h ct : String) :
    pipeline5 env s r name h ct = (.error e, []) := by
  simp [pipeline5, hcl]

/-- A concrete environment where a full live update succeeds: the endpoint
is reachable, every record is owned by address 5 (the identity derived
from the five-character secret used below), and the network accepts the
transaction as id 42. -/
def envA : Env := ⟨true, fun _ => some 5, fun _ => false, .success 42⟩

/-! ## Claims -/

/-- C1: for every supported content-type tag and every human content
identifier that is valid for that tag (i.e. that `encode` accepts),
decoding the encoding returns exactly the original identifier and tag. -/
theorem claim_C1_decode_encode (identifier : String) (tag : ContentTypeTag)
    (bs : List Nat) (h : encode identifier tag = some bs) :
    decode bs = some (identifier, tag) :=
  decode_encode identifier tag bs h

theorem claim_C1_witness :
    encode "73kG" ContentTypeTag.ipfsNs = some [227, 1, 18, 1, 5]
    ∧ decode [227, 1, 18, 1, 5] = some ("73kG", ContentTypeTag.ipfsNs) :=
  ⟨by decide, claim_C1_decode_encode "73kG" ContentTypeTag.ipfsNs [227, 1, 18, 1, 5] (by decide)⟩

/-- C2: on identical valid input, a dry run and a live run of `update`
agree on the success/failure classification through step 5 (they fail with
the same pre-send error, or both pass step 5); the dry run returns the
`UpdatePlan`'s description without ever performing `send`, while the live
run additionally performs step 7's single `send`. -/
theorem claim_C2_dry_live (env : Env) (s r n h ct : String) :
    (∀ e : UpdateError, preSendError e = true →
      ((update env s r n h ct true).1 = .error e ↔ (update env s r n h ct false).1 = .error e))
    ∧ ChainAction.sendTx ∉ (update env s r n h ct true).2
    ∧ (∀ plan : UpdatePlan, (pipeline5 env s r n h ct).1 = .ok plan →
        (update env s r n h ct true).1 = .ok (.dryRunOf plan)
        ∧ (update env s r n h ct false).2 = (update env s r n h ct true).2 ++ [ChainAction.sendTx])
    ∧ (∀ e : UpdateError, (pipeline5 env s r n h ct).1 = .error e →
        update env s r n h ct false = update env s r n h ct true) := by
  cases hq : pipeline5 env s r n h ct with
  | mk res tr =>
    cases res with
    | error e =>
      have hd := update_of_pipeline_err hq true
      have hl := update_of_pipeline_err hq false
      refine ⟨fun e' _ => by rw [hd, hl], ?_, ?_, fun e' _ => by rw [hd, hl]⟩
      · rw [hd]
        have hns := pipeline5_no_send env s r n h ct
        rw [hq] at hns
        exact hns
      · intro plan hok
        simp at hok
    | ok plan =>
      have hd := update_of_pipeline_ok_dry hq
      have hl := update_of_pipeline_ok_live hq
      refine ⟨?_, ?_, ?_, ?_⟩
      · intro e' he'
        rw [hd, hl]
        constructor
        · intro hc
          simp at hc
        · intro hc
          exfalso
          cases hs : env.sendOutcome with
          | success tx => rw [hs] at hc; simp at hc
          | reverted rs =>
            rw [hs] at hc
            simp only [Prod.fst] at hc
            have he : e' = UpdateError.TransactionReverted rs := by
              cases hc
              rfl
            rw [he] at he'
            simp [preSendError] at he'
          | timeout =>
            rw [hs] at hc
            simp only [Prod.fst] at hc
            have he : e' = UpdateError.TransactionTimeout := by
              cases hc
              rfl
            rw [he] at he'
            simp [preSendError] at he'
      · rw [hd]
        have hns := pipeline5_no_send env s r n h ct
        rw [hq] at hns
        exact hns
      · intro plan' hok
        simp only [Prod.fst] at hok
        have hpp : plan' = plan := by
          cases hok
          rfl
        subst hpp
        refine ⟨by rw [hd], ?_⟩
        rw [hd, hl]
        cases env.sendOutcome <;> simp
      · intro e' he'
        simp at he'

theorem claim_C2_witness :
    (update envA "abcde" "r" "a.eth" "73kG" "ipfs-ns" true).1
      = .ok (.dryRunOf ⟨.ENS, "setContenthash", [227, 1, 18, 1, 5]⟩)
    ∧ (update envA "abcde" "r" "a.eth" "73kG" "ipfs-ns" false).2
      = (update envA "abcde" "r" "a.eth" "73kG" "ipfs-ns" true).2 ++ [ChainAction.sendTx] :=
  (claim_C2_dry_live envA "abcde" "r" "a.eth" "73kG" "ipfs-ns").2.2.1
    ⟨.ENS, "setContenthash", [227, 1, 18, 1, 5]⟩ (by decide)

/-- C3: for every domain name whose lowercased form ends in none of the
recognized family suffixes (`.eth`; `.crypto`; `.coin`, `.wallet`,
`.bitcoin`, `.x`, `.888`, `.nft`, `.dao`, `.blockchain`), `classify` fails
with `UnsupportedDomain` and `update` performs no chain interaction at all
(in particular it never constructs a Chain Client). -/
theorem claim_C3_unsupported_domain (env : Env) (s r name h ct : String) (d : Bool)
    (hs : ∀ suf ∈ recognizedSuffixes, suf.isSuffixOf (name.toList.map Char.toLower) = false) :
    classify name = .error .UnsupportedDomain
    ∧ (update env s r name h ct d).2 = [] := by
  have h1 : (".eth".toList).isSuffixOf (name.toList.map Char.toLower) = false :=
    hs _ (by simp [recognizedSuffixes])
  have h2 : (".crypto".toList).isSuffixOf (name.toList.map Char.toLower) = false :=
    hs _ (by simp [recognizedSuffixes])
  have h3 : unsSuffixes.any (fun suf => suf.isSuffixOf (name.toList.map Char.toLower)) = false := by
    rw [List.any_eq_false]
    intro x hx
    rw [hs x (by simp [recognizedSuffixes, hx])]
    simp
  have hcl : classify name = .error .UnsupportedDomain := by
    unfold classify classifyCore
    rw [h1, h2, h3]
    simp
  refine ⟨hcl, ?_⟩
  rw [update_of_pipeline_err (pipeline5_of_classify_err hcl env s r h ct) d]

theorem claim_C3_witness :
    classify "example.com" = .error .UnsupportedDomain
    ∧ (update envA "abcde" "r" "example.com" "73kG" "ipfs-ns" false).2 = [] :=
  claim_C3_unsupported_domain envA "abcde" "r" "example.com" "73kG" "ipfs-ns" false (by decide)

/-- C4: for every (family, tag) combination the support table rejects —
CNS and UNS support only `ipfs-ns`, while ENS supports both tags —
`update` fails with `UnsupportedContentType` with no chain interaction at
all (so before any network call). -/
theorem claim_C4_unsupported_content_type (env : Env) (s r name h ct : String) (d : Bool)
    (fam : RegistryFamily) (tag : ContentTypeTag)
    (hcl : classify name = .ok fam) (htag : parseTag ct = some tag)
    (hsup : supportsContentType fam tag = false) :
    (update env s r name h ct d).1 = .error .UnsupportedContentType
    ∧ (update env s r name h ct d).2 = []
    ∧ supportsContentType .ENS .ipfsNs = true
    ∧ supportsContentType .ENS .swarmNs = true
    ∧ supportsContentType .CNS .ipfsNs = true
    ∧ supportsContentType .CNS .swarmNs = false
    ∧ supportsContentType .UNS .ipfsNs = true
    ∧ supportsContentType .UNS .swarmNs = false := by
  have hp : pipeline5 env s r name h ct = (.error .UnsupportedContentType, []) := by
    simp [pipeline5, hcl, htag, hsup]
  rw [update_of_pipeline_err hp d]
  exact ⟨rfl, rfl, rfl, rfl, rfl, rfl, rfl, rfl⟩

theorem claim_C4_witness :
    (update envA "abcde" "r" "example.crypto" "73kG" "swarm-ns" false).1
      = .error .UnsupportedContentType
    ∧ (update envA "abcde" "r" "example.crypto" "73kG" "swarm-ns" false).2 = []
    ∧ supportsContentType .ENS .ipfsNs = true
    ∧ supportsContentType .ENS .swarmNs = true
    ∧ supportsContentType .CNS .ipfsNs = true
    ∧ supportsContentType .CNS .swarmNs = false
    ∧ supportsContentType .UNS .ipfsNs = true
    ∧ supportsContentType .UNS .swarmNs = false :=
  claim_C4_unsupported_content_type envA "abcde" "r" "example.crypto" "73kG" "swarm-ns" false
    .CNS .swarmNs (by decide) (by decide) (by decide)

/-- C5: the entry point takes `(secret, rpcUrl, name, contentHash,
contentType, dryRun)` in that order; omitting `contentType` defaults it to
`"ipfs-ns"` and omitting `dryRun` defaults it to `false`, so a call that
supplies only the first four arguments is a live `ipfs-ns` update — when
it succeeds it returns a transaction identifier, never a dry-run echo. -/
theorem claim_C5_defaults (env : Env) (s r n h : String) :
    updateWithDefaults env s r n h = update env s r n h "ipfs-ns" false
    ∧ (∀ res : UpdateResult, (updateWithDefaults env s r n h).1 = .ok res →
        ∃ tx, res = .executed tx) := by
  refine ⟨rfl, ?_⟩
  intro res hres
  unfold updateWithDefaults at hres
  cases hq : pipeline5 env s r n h "ipfs-ns" with
  | mk pres tr =>
    cases pres with
    | error e =>
      rw [update_of_pipeline_err hq false] at hres
      simp at hres
    | ok plan =>
      rw [update_of_pipeline_ok_live hq] at hres
      cases hs : env.sendOutcome with
      | success tx =>
        rw [hs] at hres
        simp only [Prod.fst] at hres
        have : res = UpdateResult.executed tx := by
          cases hres
          rfl
        exact ⟨tx, this⟩
      | reverted rs => rw [hs] at hres; simp at hres
      | timeout => rw [hs] at hres; simp at hres

theorem claim_C5_witness :
    updateWithDefaults envA "abcde" "r" "a.eth" "73kG"
      = update envA "abcde" "r" "a.eth" "73kG" "ipfs-ns" false
    ∧ (∃ tx, UpdateResult.executed 42 = UpdateResult.executed tx) :=
  ⟨(claim_C5_defaults envA "abcde" "r" "a.eth" "73kG").1,
    (claim_C5_defaults envA "abcde" "r" "a.eth" "73kG").2 (.executed 42) (by decide)⟩

/-- C6: `locate` has exactly three mutually exclusive outcomes: no on-chain
record yields `DomainNotFound`; a record whose owner/approved operator is
not the signing identity yields `NotAuthorized`; otherwise it returns the
`UpdatePlan` bound to the family's write method and the encoded
content-hash argument. -/
theorem claim_C6_locate_trichotomy (env : Env) (fam : RegistryFamily) (name : String)
    (signer : Nat) (arg : List Nat) :
    (locate env fam name signer arg = .error .DomainNotFound ↔ env.recordOwner name = none)
    ∧ (locate env fam name signer arg = .error .NotAuthorized ↔
        ∃ o, env.recordOwner name = some o
          ∧ (o == signer || env.operatorApproved signer) = false)
    ∧ (∀ plan : UpdatePlan, locate env fam name signer arg = .ok plan ↔
        ∃ o, env.recordOwner name = some o
          ∧ (o == signer || env.operatorApproved signer) = true
          ∧ plan = ⟨fam, writeMethod fam, arg⟩) := by
  cases ho : env.recordOwner name with
  | none =>
    have hloc : locate env fam name signer arg = .error .DomainNotFound := by
      unfold locate
      rw [ho]
    refine ⟨by simp [hloc], ?_, ?_⟩
    · rw [hloc]
      constructor
      · intro hcontra
        simp at hcontra
      · rintro ⟨o', ho', _⟩
        exact absurd ho' (by simp)
    · intro plan
      rw [hloc]
      constructor
      · intro hcontra
        simp at hcontra
      · rintro ⟨o', ho', _, _⟩
        exact absurd ho' (by simp)
  | some o =>
    by_cases hb : (o == signer || env.operatorApproved signer) = true
    · have hloc : locate env fam name signer arg = .ok ⟨fam, writeMethod fam, arg⟩ := by
        unfold locate
        rw [ho]
        simp [hb]
      refine ⟨?_, ?_, ?_⟩
      · rw [hloc]
        constructor
        · intro hcontra
          simp at hcontra
        · intro hnone
          exact absurd hnone (by simp)
      · rw [hloc]
        constructor
        · intro hcontra
          simp at hcontra
        · rintro ⟨o', ho', hbf⟩
          have hoo : o' = o := by
            cases ho'
            rfl
          rw [hoo, hb] at hbf
          exact absurd hbf (by simp)
      · intro plan
        rw [hloc]
        constructor
        · intro hp
          have hpp : plan = ⟨fam, writeMethod fam, arg⟩ := by
            cases hp
            rfl
          exact ⟨o, rfl, hb, hpp⟩
        · rintro ⟨o', ho', _, hplan⟩
          rw [hplan]
    · have hb' : (o == signer || env.operatorApproved signer) = false := by
        simpa using hb
      have hloc : locate env fam name signer arg = .error .NotAuthorized := by
        unfold locate
        rw [ho]
        simp [hb']
      refine ⟨?_, ?_, ?_⟩
      · rw [hloc]
        constructor
        · intro hcontra
          simp at hcontra
        · intro hnone
          exact absurd hnone (by simp)
      · rw [hloc]
        constructor
        · intro _
          exact ⟨o, rfl, hb'⟩
        · intro _
          rfl
      · intro plan
        rw [hloc]
        constructor
        · intro hcontra
          simp at hcontra
        · rintro ⟨o', ho', hbt, _⟩
          have hoo : o' = o := by
            cases ho'
            rfl
          rw [hoo, hb'] at hbt
          exact absurd hbt (by simp)

theorem claim_C6_witness :
    locate envA RegistryFamily.ENS "a.eth" 7 [1] = .error .NotAuthorized :=
  ((claim_C6_locate_trichotomy envA RegistryFamily.ENS "a.eth" 7 [1]).2.1).mpr
    ⟨5, by decide, by decide⟩

/-- C7: when the content-hash string cannot be decoded under the declared
tag's payload shape, `encode` fails and `update` surfaces
`MalformedContentHash` from step 3 with no chain interaction at all (in
particular before constructing any Chain Client). -/
theorem claim_C7_malformed (env : Env) (s r name h ct : String) (d : Bool)
    (fam : RegistryFamily) (tag : ContentTypeTag)
    (hcl : classify name = .ok fam) (htag : parseTag ct = some tag)
    (hsup : supportsContentType fam tag = true) (henc : encode h tag = none) :
    (update env s r name h ct d).1 = .error .MalformedContentHash
    ∧ (update env s r name h ct d).2 = [] := by
  have hp : pipeline5 env s r name h ct = (.error .MalformedContentHash, []) := by
    simp [pipeline5, hcl, htag, hsup, henc]
  rw [update_of_pipeline_err hp d]
  exact ⟨rfl, rfl⟩

theorem claim_C7_witness :
    (update envA "abcde" "r" "a.eth" "0#" "ipfs-ns" false).1 = .error .MalformedContentHash
    ∧ (update envA "abcde" "r" "a.eth" "0#" "ipfs-ns" false).2 = [] :=
  claim_C7_malformed envA "abcde" "r" "a.eth" "0#" "ipfs-ns" false
    .ENS .ipfsNs (by decide) (by decide) (by decide) (by decide)

/-- C8: in every execution of `update`, the step-7 `send` is attempted at
most once (so no automatic retry exists), and a failure classified at
steps 1–5 performs no `send` at all, leaving chain state untouched. -/
theorem claim_C8_send_once (env : Env) (s r n h ct : String) (d : Bool) :
    (update env s r n h ct d).2.count ChainAction.sendTx ≤ 1
    ∧ (∀ e : UpdateError, preSendError e = true → (update env s r n h ct d).1 = .error e →
        ChainAction.sendTx ∉ (update env s r n h ct d).2) := by
  cases hq : pipeline5 env s r n h ct with
  | mk res tr =>
    have hns : ChainAction.sendTx ∉ tr := by
      have := pipeline5_no_send env s r n h ct
      rw [hq] at this
      exact this
    have hcnt : tr.count ChainAction.sendTx = 0 := List.count_eq_zero.mpr hns
    cases res with
    | error e =>
      rw [update_of_pipeline_err hq d]
      exact ⟨by simp [hcnt], fun _ _ _ => hns⟩
    | ok plan =>
      cases d with
      | true =>
        rw [update_of_pipeline_ok_dry hq]
        exact ⟨by simp [hcnt], fun _ _ _ => hns⟩
      | false =>
        rw [update_of_pipeline_ok_live hq]
        cases hs : env.sendOutcome with
        | success tx =>
          refine ⟨by simp [List.count_append, hcnt], ?_⟩
          intro e _ hcontra
          simp at hcontra
        | reverted rs =>
          refine ⟨by simp [List.count_append, hcnt], ?_⟩
          intro e he hcontra
          simp only [Prod.fst] at hcontra
          have : e = UpdateError.TransactionReverted rs := by
            cases hcontra
            rfl
          rw [this] at he
          simp [preSendError] at he
        | timeout =>
          refine ⟨by simp [List.count_append, hcnt], ?_⟩
          intro e he hcontra
          simp only [Prod.fst] at hcontra
          have : e = UpdateError.TransactionTimeout := by
            cases hcontra
            rfl
          rw [this] at he
          simp [preSendError] at he

theorem claim_C8_witness :
    (update envA "abcde" "r" "example.com" "73kG" "ipfs-ns" false).2.count
      ChainAction.sendTx ≤ 1
    ∧ ChainAction.sendTx ∉ (update envA "abcde" "r" "example.com" "73kG" "ipfs-ns" false).2 :=
  ⟨(claim_C8_send_once envA "abcde" "r" "example.com" "73kG" "ipfs-ns" false).1,
    (claim_C8_send_once envA "abcde" "r" "example.com" "73kG" "ipfs-ns" false).2
      .UnsupportedDomain (by decide) (by decide)⟩

/-- C9: `classify` is deterministic (equal inputs give equal results) and
case-insensitive: two names with the same lowercasing — in particular two
names differing only in the letter case of their suffix, such as `.eth`
vs `.ETH` — classify identically. -/
theorem claim_C9_classify_ci :
    (∀ name : String, classify name = classify name)
    ∧ (∀ n1 n2 : String, n1.toList.map Char.toLower = n2.toList.map Char.toLower →
        classify n1 = classify n2) :=
  ⟨fun _ => rfl, fun n1 n2 h => by unfold classify; rw [h]⟩

theorem claim_C9_witness : classify "a.ETH" = classify "a.eth" :=
  claim_C9_classify_ci.2 "a.ETH" "a.eth" (by decide)

/-- C10: in the runner harness of `src/runner.js`, a resolved update
promise prints the result and exits with code 0, while a rejected promise
is only handed to `console.error` with no exit code set — the process
still terminates with exit code 0, so success and failure are
indistinguishable by exit status. -/
theorem claim_C10_runner_exit_code :
    (∀ x : String, runnerFinish (.ok x) = ⟨[">>> " ++ x], [], 0⟩)
    ∧ (∀ e : String, runnerFinish (.error e) = ⟨[], [e], 0⟩)
    ∧ (∀ r1 r2 : Except String String,
        (runnerFinish r1).exitCode = (runnerFinish r2).exitCode) := by
  refine ⟨fun _ => rfl, fun _ => rfl, fun r1 r2 => ?_⟩
  cases r1 <;> cases r2 <;> rfl

end DdnsAction
